import Mathlib

/-!
Verification of the FRI (feature relevance interval) optimization core.

The embedding covers:
* the orchestrator `FRIBase._main_opt` (fri/fri.py): work-list construction,
  result collection, shadow correction, L1 rescaling and numerical cleanup;
* the relevance mask `FRIBase._get_relevance_mask` and `n_features_`;
* the convex problem formulations of rbclassifier/optproblems.py
  (`BaseClassificationProblem`, `MinProblemClassification`, `MaxProblem1`,
  `MaxProblem2`) as feasible-region predicates over the reals.

Matrices indexed `[di, kind]` (kind 0 = lower bound, 1 = upper bound) are
embedded as functions `ℕ → ℕ → ℚ`; rationals model exact real arithmetic.
A small inductive `FVal` models the IEEE special values (infinities, NaN)
where they decide a claim about sentinel propagation.
-/

namespace Fri

/-- One unit of work created by `_main_opt`: feature index `di`, bound kind
(`kind` = the `type` attribute: 0 for a lower bound, 1 for an upper bound) and
whether it is a shadow (permuted-feature) task.  The tagging of shadow tasks is
modelled from the spec: the bound-task classes live in the missing
`fri/bounds.py`; the spec says a shadow task "is tagged so the Orchestrator
routes its result into the shadow-correction path". -/
structure Task where
  di : ℕ
  kind : ℕ
  isShadow : Bool
deriving DecidableEq

/-- A solved task as read back by the collection loop of `_main_opt`:
the optimal objective value `value` (`prob_instance.problem.value`), the
optimal weight vector `omega` and the bias `b`. -/
structure FinishedBound where
  di : ℕ
  kind : ℕ
  isShadow : Bool
  value : ℚ
  omega : ℕ → ℚ
  b : ℚ

/-- The four accumulator arrays of `_main_opt` (lines 176-179 of fri/fri.py):
`rangevector` (d×2), `shadowrangevector` (d×2), `omegas` (d×2×d), `biase`
(d×2), all initialized to zeros. -/
@[ext] structure CollectState where
  rangevector : ℕ → ℕ → ℚ
  shadowrangevector : ℕ → ℕ → ℚ
  omegas : ℕ → ℕ → ℕ → ℚ
  biase : ℕ → ℕ → ℚ

/-- Pointwise update of a doubly indexed array: `upd2 f a b v` is the numpy
assignment `f[a, b] = v`. -/
def upd2 {α : Type} (f : ℕ → ℕ → α) (a b : ℕ) (v : α) : ℕ → ℕ → α :=
  fun x y => if x = a ∧ y = b then v else f x y

/-- The zero-initialized accumulators (`np.zeros`). -/
def initState : CollectState :=
  ⟨fun _ _ => 0, fun _ _ => 0, fun _ _ _ => 0, fun _ _ => 0⟩

/-- One iteration of the collection loop of `_main_opt` (lines 209-218):
a real task overwrites its `rangevector`, `omegas` and `biase` slot, a shadow
task accumulates `value / n_resampling` into its `shadowrangevector` slot. -/
def collectOne (n_resampling : ℕ) (s : CollectState) (fb : FinishedBound) :
    CollectState :=
  if fb.isShadow then
    { s with shadowrangevector := (upd2 s.shadowrangevector fb.di fb.kind (s.shadowrangevector fb.di fb.kind + fb.value / (n_resampling : ℚ))) }
  else
    { s with
        rangevector := (upd2 s.rangevector fb.di fb.kind fb.value),
        omegas := (upd2 s.omegas fb.di fb.kind fb.omega),
        biase := (upd2 s.biase fb.di fb.kind fb.b) }

/-- The whole collection loop, folded over the finished tasks in order. -/
def collectAll (n_resampling : ℕ) (l : List FinishedBound) : CollectState :=
  l.foldl (collectOne n_resampling) initState

/-- Shadow correction step 1 (line 226): `rangevector -= shadowrangevector`. -/
def shadowCorrected (rv srv : ℕ → ℕ → ℚ) : ℕ → ℕ → ℚ :=
  fun di k => rv di k - srv di k

/-- Shadow correction step 2 (line 227): `rangevector[rangevector < 0] = 0`. -/
def clampNegatives (rv : ℕ → ℕ → ℚ) : ℕ → ℕ → ℚ :=
  fun di k => if rv di k < 0 then 0 else rv di k

/-- Rescaling (lines 230-231): if `L1 > 0` divide every entry by `L1`. -/
def scaleByL1 (L1 : ℚ) (rv : ℕ → ℕ → ℚ) : ℕ → ℕ → ℚ :=
  if 0 < L1 then fun di k => rv di k / L1 else rv

/-- Numerical cleanup (line 235):
`rangevector[np.abs(rangevector) < 1 * 10 ** -4] = 0`. -/
def roundMinsToZero (rv : ℕ → ℕ → ℚ) : ℕ → ℕ → ℚ :=
  fun di k => if |rv di k| < 1 / 10000 then 0 else rv di k

/-- The post-processing of `_main_opt` (lines 220-235) applied to the collected
interval matrix, in source order: optional shadow correction with clamping,
then L1 rescaling, then cleanup. -/
def mainOptPost (shadow_features : Bool) (L1 : ℚ) (rv srv : ℕ → ℕ → ℚ) :
    ℕ → ℕ → ℚ :=
  roundMinsToZero (scaleByL1 L1
    (if shadow_features then clampNegatives (shadowCorrected rv srv) else rv))

/-- Work-list block for one resampling iteration (lines 195-196): a shadow
lower-bound task and a shadow upper-bound task for every feature. -/
def shadowBlock (d : ℕ) : List Task :=
  ((List.range d).map fun di => ⟨di, 0, true⟩) ++
    ((List.range d).map fun di => ⟨di, 1, true⟩)

/-- The full work list of `_main_opt` (lines 191-196): a lower and an upper
bound task per feature on the real data, then, when shadow features are
enabled, one `shadowBlock` per resampling iteration. -/
def workList (d n_resampling : ℕ) (shadow_features : Bool) : List Task :=
  let base : List Task :=
    ((List.range d).map fun di => ⟨di, 0, false⟩) ++
      ((List.range d).map fun di => ⟨di, 1, false⟩)
  if shadow_features then
    base ++ (List.replicate n_resampling (shadowBlock d)).flatten
  else base

/-- Attach a solver outcome `(value, omega, b)` to its task. -/
def mkFinished (t : Task) (r : ℚ × (ℕ → ℚ) × ℚ) : FinishedBound :=
  ⟨t.di, t.kind, t.isShadow, r.1, r.2.1, r.2.2⟩

/-- The collected accumulator state of `_main_opt` before post-processing,
with the solver abstracted as a function from tasks to outcomes. -/
def rawOf (d n_resampling : ℕ) (shadow_features : Bool)
    (solveT : Task → ℚ × (ℕ → ℚ) × ℚ) : CollectState :=
  collectAll n_resampling
    ((workList d n_resampling shadow_features).map fun t => mkFinished t (solveT t))

/-- `_main_opt` end to end (work list, sequential solve, collection,
post-processing), returning the tuple
`(rangevector, omegas, biase, shadowrangevector)` of line 237. -/
def mainOptFull (d n_resampling : ℕ) (shadow_features : Bool) (L1 : ℚ)
    (solveT : Task → ℚ × (ℕ → ℚ) × ℚ) :
    (ℕ → ℕ → ℚ) × (ℕ → ℕ → ℕ → ℚ) × (ℕ → ℕ → ℚ) × (ℕ → ℕ → ℚ) :=
  let s := rawOf d n_resampling shadow_features solveT
  (mainOptPost shadow_features L1 s.rangevector s.shadowrangevector,
    s.omegas, s.biase, s.shadowrangevector)

end Fri

namespace Fri

/-- Claim C1: `_main_opt` post-processes the collected d×2 interval matrix in
exactly this order — when shadow correction is enabled the interval becomes the
elementwise maximum of (interval − shadow_interval) and 0; then, if and only if
`L1 > 0`, every entry is divided by `L1`; then every entry of absolute value
below `1e-4` becomes exactly 0 — and it returns the tuple
`(interval, omegas, bias, shadow_interval)`. -/
theorem mainOpt_postprocessing_order (d n_resampling : ℕ) (shadow_features : Bool)
    (L1 : ℚ) (solveT : Task → ℚ × (ℕ → ℚ) × ℚ) (di k : ℕ) :
    (mainOptFull d n_resampling shadow_features L1 solveT).1 di k =
      (let s := rawOf d n_resampling shadow_features solveT
       let corrected := if shadow_features then
           max (s.rangevector di k - s.shadowrangevector di k) 0
         else s.rangevector di k
       let scaled := if 0 < L1 then corrected / L1 else corrected
       if |scaled| < 1 / 10000 then 0 else scaled) ∧
    (mainOptFull d n_resampling shadow_features L1 solveT).2.1 =
      (rawOf d n_resampling shadow_features solveT).omegas ∧
    (mainOptFull d n_resampling shadow_features L1 solveT).2.2.1 =
      (rawOf d n_resampling shadow_features solveT).biase ∧
    (mainOptFull d n_resampling shadow_features L1 solveT).2.2.2 =
      (rawOf d n_resampling shadow_features solveT).shadowrangevector := by
  have hmax : ∀ x : ℚ, (if x < 0 then (0 : ℚ) else x) = max x 0 := by
    intro x
    by_cases hx : x < 0
    · simp [hx, max_eq_right hx.le]
    · simp [hx, max_eq_left (not_lt.mp hx)]
  refine ⟨?_, rfl, rfl, rfl⟩
  simp only [mainOptFull, mainOptPost, roundMinsToZero, scaleByL1, clampNegatives,
    shadowCorrected]
  cases shadow_features with
  | false =>
    simp only [Bool.false_eq_true, if_false]
    by_cases hL : 0 < L1 <;> simp [hL]
  | true =>
    simp only [if_true]
    by_cases hL : 0 < L1
    · simp only [hL, if_true, clampNegatives, shadowCorrected]
      rw [hmax]
    · simp only [hL, if_false, clampNegatives, shadowCorrected]
      rw [hmax]

/-- Shadow-correction of one entry (lines 226-227): subtract the shadow value,
then clamp a negative result to zero; without shadow correction the entry is
untouched. -/
def corrEntry (shadow_features : Bool) (a b : ℚ) : ℚ :=
  if shadow_features then (if a - b < 0 then 0 else a - b) else a

/-- Rescaling of one entry (lines 230-231). -/
def scaleEntry (L1 c : ℚ) : ℚ :=
  if 0 < L1 then c / L1 else c

/-- Cleanup of one entry (line 235). -/
def roundEntry (s : ℚ) : ℚ :=
  if |s| < 1 / 10000 then 0 else s

/-- `mainOptPost` acts entrywise as `roundEntry ∘ scaleEntry ∘ corrEntry`. -/
theorem mainOptPost_entry (shadow_features : Bool) (L1 : ℚ) (rv srv : ℕ → ℕ → ℚ)
    (di k : ℕ) :
    mainOptPost shadow_features L1 rv srv di k =
      roundEntry (scaleEntry L1 (corrEntry shadow_features (rv di k) (srv di k))) := by
  simp only [mainOptPost, roundMinsToZero, scaleByL1,
    corrEntry, scaleEntry, roundEntry]
  cases shadow_features <;> by_cases hL : 0 < L1 <;>
    simp only [hL, if_true, if_false, Bool.false_eq_true, Bool.true_eq_false,
      clampNegatives, shadowCorrected]

/-- With shadow correction on, a corrected entry is nonnegative. -/
theorem corrEntry_nonneg (a b : ℚ) : 0 ≤ corrEntry true a b := by
  unfold corrEntry
  rw [if_pos rfl]
  split_ifs with h
  · exact le_refl 0
  · exact not_lt.mp h

/-- Rescaling preserves nonnegativity. -/
theorem scaleEntry_nonneg {L1 c : ℚ} (hc : 0 ≤ c) : 0 ≤ scaleEntry L1 c := by
  unfold scaleEntry
  split_ifs with h
  · exact div_nonneg hc h.le
  · exact hc

/-- Cleanup preserves nonnegativity. -/
theorem roundEntry_nonneg {s : ℚ} (hs : 0 ≤ s) : 0 ≤ roundEntry s := by
  unfold roundEntry
  split_ifs
  · exact le_refl 0
  · exact hs

/-- With shadow correction on, correction is monotone in the difference. -/
theorem corrEntry_mono {a0 b0 a1 b1 : ℚ} (h : a0 - b0 ≤ a1 - b1) :
    corrEntry true a0 b0 ≤ corrEntry true a1 b1 := by
  unfold corrEntry
  rw [if_pos rfl, if_pos rfl]
  split_ifs with h0 h1 h1
  · exact le_refl 0
  · exact not_lt.mp h1
  · exact absurd (lt_of_le_of_lt h h1) h0
  · exact h

/-- Rescaling is monotone. -/
theorem scaleEntry_mono {L1 c0 c1 : ℚ} (h : c0 ≤ c1) :
    scaleEntry L1 c0 ≤ scaleEntry L1 c1 := by
  unfold scaleEntry
  split_ifs with hL
  · rw [div_eq_mul_inv, div_eq_mul_inv]
    exact mul_le_mul_of_nonneg_right h (inv_nonneg.mpr hL.le)
  · exact h

/-- Cleanup is monotone on nonnegative entries. -/
theorem roundEntry_mono {s0 s1 : ℚ} (h0 : 0 ≤ s0) (h1 : 0 ≤ s1) (h : s0 ≤ s1) :
    roundEntry s0 ≤ roundEntry s1 := by
  unfold roundEntry
  split_ifs with hb0 hb1 hb1
  · exact le_refl 0
  · exact h1
  · rw [abs_of_nonneg h0] at hb0
    rw [abs_of_nonneg h1] at hb1
    exact absurd (lt_of_le_of_lt h hb1) hb0
  · exact h

/-- Claim C2 (amended): with shadow correction enabled, every entry of the
post-processed interval matrix is nonnegative; the per-feature ordering
`interval[di, 0] ≤ interval[di, 1]` additionally holds whenever the
shadow-corrected raw differences are themselves ordered,
`rv[di,0] − srv[di,0] ≤ rv[di,1] − srv[di,1]` (the unconditional ordering
asserted by the claim fails: distinct shadow amounts on the two slots can
invert the collected bounds). -/
theorem interval_nonneg_and_conditional_monotone (L1 : ℚ) (rv srv : ℕ → ℕ → ℚ)
    (di : ℕ) :
    (0 ≤ mainOptPost true L1 rv srv di 0 ∧ 0 ≤ mainOptPost true L1 rv srv di 1) ∧
      (rv di 0 - srv di 0 ≤ rv di 1 - srv di 1 →
        mainOptPost true L1 rv srv di 0 ≤ mainOptPost true L1 rv srv di 1) := by
  constructor
  · constructor <;>
      · rw [mainOptPost_entry]
        exact roundEntry_nonneg (scaleEntry_nonneg (corrEntry_nonneg _ _))
  · intro hord
    rw [mainOptPost_entry, mainOptPost_entry]
    exact roundEntry_mono (scaleEntry_nonneg (corrEntry_nonneg _ _))
      (scaleEntry_nonneg (corrEntry_nonneg _ _))
      (scaleEntry_mono (corrEntry_mono hord))

/-- Interval matrix for the C2 counterexample: row 0 is (1, 2). -/
def exRvC2 : ℕ → ℕ → ℚ := fun _ k => if k = 1 then 2 else 1

/-- Shadow matrix for the C2 counterexample: row 0 is (0, 2): the upper slot
collected a larger shadow mean than the lower slot. -/
def exSrvC2 : ℕ → ℕ → ℚ := fun _ k => if k = 1 then 2 else 0

/-- Claim C2 is false as stated: with shadow correction enabled, the collected
row (1, 2) with shadow row (0, 2) post-processes to (1, 0), whose lower bound
strictly exceeds its upper bound. -/
theorem interval_monotone_counterexample :
    ¬ (mainOptPost true 1 exRvC2 exSrvC2 0 0 ≤ mainOptPost true 1 exRvC2 exSrvC2 0 1 ∧
        0 ≤ mainOptPost true 1 exRvC2 exSrvC2 0 0 ∧
        0 ≤ mainOptPost true 1 exRvC2 exSrvC2 0 1) := by
  have h0 : mainOptPost true 1 exRvC2 exSrvC2 0 0 = 1 := by
    rw [mainOptPost_entry]
    norm_num [exRvC2, exSrvC2, corrEntry, scaleEntry, roundEntry]
  have h1 : mainOptPost true 1 exRvC2 exSrvC2 0 1 = 0 := by
    rw [mainOptPost_entry]
    norm_num [exRvC2, exSrvC2, corrEntry, scaleEntry, roundEntry]
  rw [h0, h1]
  norm_num

/-- Interval matrix for the C2 witness: row 0 is (1, 2). -/
def exRvW : ℕ → ℕ → ℚ := fun _ k => if k = 1 then 2 else 1

/-- Zero shadow matrix for the C2 witness. -/
def exSrvW : ℕ → ℕ → ℚ := fun _ _ => 0

/-- Witness for the amended claim C2 at a concrete input. -/
theorem interval_nonneg_and_conditional_monotone_witness :
    exRvW 0 0 - exSrvW 0 0 ≤ exRvW 0 1 - exSrvW 0 1 ∧
      mainOptPost true 1 exRvW exSrvW 0 0 ≤ mainOptPost true 1 exRvW exSrvW 0 1 := by
  have hprem : exRvW 0 0 - exSrvW 0 0 ≤ exRvW 0 1 - exSrvW 0 1 := by
    norm_num [exRvW, exSrvW]
  exact ⟨hprem, (interval_nonneg_and_conditional_monotone 1 exRvW exSrvW 0).2 hprem⟩

/-- `FRIBase._get_relevance_mask` (fri/fri.py lines 109-136): start from an
all-false prediction, set features whose interval upper bound exceeds
`upper_epsilon` to true, then set features whose lower bound exceeds
`lower_epsilon` to true.  The d×2 matrix `interval_` is a list of
(lower, upper) rows. -/
def getRelevanceMask (rangevector : List (ℚ × ℚ)) (upper_epsilon lower_epsilon : ℚ) :
    List Bool :=
  let prediction := rangevector.map (fun _ => false)
  let prediction1 := (rangevector.zip prediction).map
    (fun rp => if upper_epsilon < rp.1.2 then true else rp.2)
  (rangevector.zip prediction1).map
    (fun rp => if lower_epsilon < rp.1.1 then true else rp.2)

/-- `FRIBase.n_features_` (lines 138-145): `sum(self.allrel_prediction_)`. -/
def n_features (mask : List Bool) : ℕ :=
  (mask.map (fun b => if b then 1 else 0)).sum

/-- The mask computation on a cons cell. -/
theorem getRelevanceMask_cons (r : ℚ × ℚ) (t : List (ℚ × ℚ)) (ue le : ℚ) :
    getRelevanceMask (r :: t) ue le =
      (if le < r.1 then true else if ue < r.2 then true else false) ::
        getRelevanceMask t ue le := by
  simp [getRelevanceMask]

/-- The mask is the pointwise disjunction of the two threshold tests. -/
theorem getRelevanceMask_eq_map (l : List (ℚ × ℚ)) (ue le : ℚ) :
    getRelevanceMask l ue le = l.map (fun r => decide (ue < r.2 ∨ le < r.1)) := by
  induction l with
  | nil => rfl
  | cons r t ih =>
    rw [getRelevanceMask_cons, ih]
    simp only [List.map_cons, List.cons.injEq, and_true]
    by_cases hle : le < r.1 <;> by_cases hue : ue < r.2 <;> simp [hle, hue]

/-- `n_features` counts the true entries. -/
theorem n_features_eq_countP (mask : List Bool) :
    n_features mask = mask.countP (fun b => b) := by
  induction mask with
  | nil => rfl
  | cons b t ih =>
    rw [List.countP_cons]
    simp only [n_features, List.map_cons, List.sum_cons] at ih ⊢
    rw [ih]
    by_cases hb : b <;> simp [hb]
    omega

/-- Claim C10: after fit, feature i is marked relevant if and only if
`interval_[i,1] > 0.1` or `interval_[i,0] > 0.0323` (no other condition), and
`n_features_` is the number of features satisfying this disjunction. -/
theorem relevance_mask_rule (rangevector : List (ℚ × ℚ)) :
    getRelevanceMask rangevector (1 / 10) (323 / 10000) =
      rangevector.map (fun r => decide (1 / 10 < r.2 ∨ 323 / 10000 < r.1)) ∧
    (∀ i, i < rangevector.length →
      (getRelevanceMask rangevector (1 / 10) (323 / 10000)).getD i false =
        decide (1 / 10 < (rangevector.getD i (0, 0)).2 ∨
          323 / 10000 < (rangevector.getD i (0, 0)).1)) ∧
    n_features (getRelevanceMask rangevector (1 / 10) (323 / 10000)) =
      rangevector.countP (fun r => decide (1 / 10 < r.2 ∨ 323 / 10000 < r.1)) := by
  refine ⟨getRelevanceMask_eq_map rangevector (1 / 10) (323 / 10000), ?_, ?_⟩
  · intro i hi
    rw [getRelevanceMask_eq_map]
    rw [List.getD_eq_getElem?_getD, List.getElem?_map]
    rw [List.getElem?_eq_getElem hi]
    simp [List.getD_eq_getElem?_getD, List.getElem?_eq_getElem hi]
  · rw [getRelevanceMask_eq_map, n_features_eq_countP, List.countP_map]
    rfl

/-- Interval rows for the C10 witness: feature 0 weakly relevant (upper bound
0.5), feature 1 irrelevant. -/
def exInterval : List (ℚ × ℚ) := [(0, 1 / 2), (0, 0)]

/-- Witness for claim C10 at a concrete interval matrix. -/
theorem relevance_mask_rule_witness :
    0 < exInterval.length ∧
      (getRelevanceMask exInterval (1 / 10) (323 / 10000)).getD 0 false =
        decide (1 / 10 < (exInterval.getD 0 (0, 0)).2 ∨
          323 / 10000 < (exInterval.getD 0 (0, 0)).1) := by
  have hlen : 0 < exInterval.length := by simp [exInterval]
  exact ⟨hlen, (relevance_mask_rule exInterval).2.1 0 hlen⟩


/-- Length of one shadow block: one shadow lower and one shadow upper task per
feature. -/
theorem shadowBlock_length (d : ℕ) : (shadowBlock d).length = 2 * d := by
  simp [shadowBlock]
  ring

/-- Membership in a shadow block. -/
theorem shadowBlock_mem {d : ℕ} {t : Task} (ht : t ∈ shadowBlock d) :
    t.di < d ∧ (t.kind = 0 ∨ t.kind = 1) ∧ t.isShadow = true := by
  simp only [shadowBlock, List.mem_append, List.mem_map, List.mem_range] at ht
  rcases ht with ⟨di, hdi, rfl⟩ | ⟨di, hdi, rfl⟩ <;> simp [hdi]

/-- Membership in the repeated shadow blocks. -/
theorem flattenRep_mem {d n : ℕ} {t : Task}
    (ht : t ∈ (List.replicate n (shadowBlock d)).flatten) :
    t.di < d ∧ (t.kind = 0 ∨ t.kind = 1) ∧ t.isShadow = true := by
  rw [List.mem_flatten] at ht
  obtain ⟨s, hs, hts⟩ := ht
  rw [List.eq_of_mem_replicate hs] at hts
  exact shadowBlock_mem hts

/-- Length of the repeated shadow blocks. -/
theorem flattenRep_length (d n : ℕ) :
    ((List.replicate n (shadowBlock d)).flatten).length = 2 * d * n := by
  induction n with
  | zero => simp
  | succ m ih =>
    rw [List.replicate_succ]
    simp only [List.flatten_cons, List.length_append, ih, shadowBlock_length]
    ring

/-- Claim C5: with shadow correction enabled, `_main_opt` builds exactly `d`
real lower-bound tasks, `d` real upper-bound tasks, and `2·d·n_resampling`
shadow tasks (2·d per resampling iteration), for a total of
`2·d·(1 + n_resampling)` tasks; every task addresses a feature index below `d`
with bound kind 0 or 1, and no other tasks are created. -/
theorem workList_enumeration (d n_resampling : ℕ) :
    ((workList d n_resampling true).countP (fun t => !t.isShadow && t.kind == 0)) = d ∧
    ((workList d n_resampling true).countP (fun t => !t.isShadow && t.kind == 1)) = d ∧
    ((workList d n_resampling true).countP (fun t => t.isShadow)) = 2 * d * n_resampling ∧
    (workList d n_resampling true).length = 2 * d * (1 + n_resampling) ∧
    (∀ t ∈ workList d n_resampling true, t.di < d ∧ (t.kind = 0 ∨ t.kind = 1)) := by
  have hshadow_all : ∀ t ∈ (List.replicate n_resampling (shadowBlock d)).flatten,
      t.isShadow = true := fun t ht => (flattenRep_mem ht).2.2
  have hall : ∀ (kv : ℕ) (sv : Bool) (p : Task → Bool), (∀ di, p ⟨di, kv, sv⟩ = true) →
      ((List.range d).map fun di => (⟨di, kv, sv⟩ : Task)).countP p = d := by
    intro kv sv p hp
    rw [List.countP_eq_length.mpr, List.length_map, List.length_range]
    intro t ht
    simp only [List.mem_map, List.mem_range] at ht
    obtain ⟨di, _, rfl⟩ := ht
    exact hp di
  have hnone : ∀ (kv : ℕ) (sv : Bool) (p : Task → Bool), (∀ di, p ⟨di, kv, sv⟩ = false) →
      ((List.range d).map fun di => (⟨di, kv, sv⟩ : Task)).countP p = 0 := by
    intro kv sv p hp
    rw [List.countP_eq_zero]
    intro t ht
    simp only [List.mem_map, List.mem_range] at ht
    obtain ⟨di, _, rfl⟩ := ht
    simp [hp di]
  have hsz : ∀ p : Task → Bool, (∀ t, t.isShadow = true → p t = false) →
      ((List.replicate n_resampling (shadowBlock d)).flatten).countP p = 0 := by
    intro p hp
    rw [List.countP_eq_zero]
    intro t ht
    simp [hp t (hshadow_all t ht)]
  refine ⟨?_, ?_, ?_, ?_, ?_⟩
  · simp only [workList, if_true, List.countP_append]
    rw [hall 0 false _ (fun di => rfl), hnone 1 false _ (fun di => rfl),
      hsz _ (fun t ht => by simp [ht])]
    omega
  · simp only [workList, if_true, List.countP_append]
    rw [hnone 0 false _ (fun di => rfl), hall 1 false _ (fun di => rfl),
      hsz _ (fun t ht => by simp [ht])]
    omega
  · simp only [workList, if_true, List.countP_append]
    rw [hnone 0 false _ (fun di => rfl), hnone 1 false _ (fun di => rfl),
      List.countP_eq_length.mpr (fun t ht => hshadow_all t ht), flattenRep_length]
    omega
  · simp only [workList, if_true, List.length_append, List.length_map,
      List.length_range, flattenRep_length]
    ring
  · intro t ht
    simp only [workList, if_true, List.mem_append, List.mem_map, List.mem_range] at ht
    rcases ht with (⟨di, hdi, rfl⟩ | ⟨di, hdi, rfl⟩) | ht
    · exact ⟨hdi, Or.inl rfl⟩
    · exact ⟨hdi, Or.inr rfl⟩
    · exact ⟨(flattenRep_mem ht).1, (flattenRep_mem ht).2.1⟩

/-- Witness for claim C5 at a concrete input: the first task of
`workList 1 1 true` addresses feature 0 with kind 0. -/
theorem workList_enumeration_witness :
    (⟨0, 0, false⟩ : Task) ∈ workList 1 1 true ∧
      (⟨0, 0, false⟩ : Task).di < 1 ∧
      ((⟨0, 0, false⟩ : Task).kind = 0 ∨ (⟨0, 0, false⟩ : Task).kind = 1) := by
  have hmem : (⟨0, 0, false⟩ : Task) ∈ workList 1 1 true := by decide
  exact ⟨hmem, (workList_enumeration 1 1).2.2.2.2 _ hmem⟩


/-- Updates of distinct slots commute. -/
theorem upd2_comm {α : Type} (f : ℕ → ℕ → α) {a1 b1 a2 b2 : ℕ} {v1 v2 : α}
    (h : ¬(a1 = a2 ∧ b1 = b2)) :
    upd2 (upd2 f a1 b1 v1) a2 b2 v2 = upd2 (upd2 f a2 b2 v2) a1 b1 v1 := by
  funext x y
  unfold upd2
  by_cases h1 : x = a1 ∧ y = b1
  · by_cases h2 : x = a2 ∧ y = b2
    · exact absurd ⟨h1.1.symm.trans h2.1, h1.2.symm.trans h2.2⟩ h
    · rw [if_neg h2, if_pos h1, if_pos h1]
  · by_cases h2 : x = a2 ∧ y = b2
    · rw [if_pos h2, if_neg h1, if_pos h2]
    · rw [if_neg h2, if_neg h1, if_neg h1, if_neg h2]

/-- Two shadow accumulations commute, also on the same slot. -/
theorem upd2_accum_comm (f : ℕ → ℕ → ℚ) (a1 b1 a2 b2 : ℕ) (v1 v2 : ℚ) :
    upd2 (upd2 f a1 b1 (f a1 b1 + v1)) a2 b2
        ((upd2 f a1 b1 (f a1 b1 + v1)) a2 b2 + v2) =
      upd2 (upd2 f a2 b2 (f a2 b2 + v2)) a1 b1
        ((upd2 f a2 b2 (f a2 b2 + v2)) a1 b1 + v1) := by
  by_cases hk : a1 = a2 ∧ b1 = b2
  · obtain ⟨e1, e2⟩ := hk
    subst e1
    subst e2
    funext x y
    unfold upd2
    by_cases h1 : x = a1 ∧ y = b1
    · simp only [h1, and_self, if_true, if_pos]
      ring
    · rw [if_neg h1, if_neg h1, if_neg h1, if_neg h1]
  · have hk2 : ¬(a2 = a1 ∧ b2 = b1) := fun hc => hk ⟨hc.1.symm, hc.2.symm⟩
    funext x y
    unfold upd2
    by_cases h1 : x = a1 ∧ y = b1
    · have h2 : ¬(x = a2 ∧ y = b2) :=
        fun hc => hk ⟨h1.1.symm.trans hc.1, h1.2.symm.trans hc.2⟩
      rw [if_neg h2, if_pos h1, if_pos h1, if_neg hk]
    · by_cases h2 : x = a2 ∧ y = b2
      · rw [if_pos h2, if_neg hk2, if_neg h1, if_pos h2]
      · rw [if_neg h2, if_neg h1, if_neg h1, if_neg h2]

/-- Two collection-loop iterations commute unless both results are real tasks
for the same `(di, kind)` slot. -/
theorem collectOne_comm (n_resampling : ℕ) (s : CollectState) (a b : FinishedBound)
    (h : a.isShadow = true ∨ b.isShadow = true ∨ ¬(a.di = b.di ∧ a.kind = b.kind)) :
    collectOne n_resampling (collectOne n_resampling s a) b =
      collectOne n_resampling (collectOne n_resampling s b) a := by
  by_cases ha : a.isShadow <;> by_cases hb : b.isShadow <;>
    simp only [collectOne, ha, hb, if_true, if_false, Bool.false_eq_true]
  · congr 1
    exact upd2_accum_comm _ _ _ _ _ _ _
  · have hk : ¬(a.di = b.di ∧ a.kind = b.kind) := by
      rcases h with h | h | h
      · exact absurd h ha
      · exact absurd h hb
      · exact h
    congr 1
    · exact upd2_comm _ hk
    · exact upd2_comm _ hk
    · exact upd2_comm _ hk

/-- The pairwise slot-distinctness hypothesis survives dropping the head. -/
theorem pairwise_filter_tail {x : FinishedBound} {l : List FinishedBound}
    (hnd : ((x :: l).filter fun fb => !fb.isShadow).Pairwise
      fun a b => ¬(a.di = b.di ∧ a.kind = b.kind)) :
    ((l.filter fun fb => !fb.isShadow).Pairwise
      fun a b => ¬(a.di = b.di ∧ a.kind = b.kind)) := by
  rw [List.filter_cons] at hnd
  by_cases hx : !x.isShadow
  · rw [if_pos hx] at hnd
    exact hnd.tail
  · rwa [if_neg hx] at hnd

/-- Folding the collection loop from any start state is invariant under
permutation of the finished-task list, provided no two real tasks share a
`(di, kind)` slot. -/
theorem foldl_collect_perm (n_resampling : ℕ) {l m : List FinishedBound}
    (hp : l.Perm m) :
    ((l.filter fun fb => !fb.isShadow).Pairwise
      fun a b => ¬(a.di = b.di ∧ a.kind = b.kind)) →
    ∀ s, l.foldl (collectOne n_resampling) s = m.foldl (collectOne n_resampling) s := by
  induction hp with
  | nil => exact fun _ _ => rfl
  | cons x h ih =>
    intro hnd s
    simp only [List.foldl_cons]
    exact ih (pairwise_filter_tail hnd) (collectOne n_resampling s x)
  | swap x y l2 =>
    intro hnd s
    simp only [List.foldl_cons]
    have hcomm : collectOne n_resampling (collectOne n_resampling s y) x =
        collectOne n_resampling (collectOne n_resampling s x) y := by
      apply collectOne_comm
      by_cases hy : y.isShadow
      · exact Or.inl hy
      · by_cases hx : x.isShadow
        · exact Or.inr (Or.inl hx)
        · refine Or.inr (Or.inr ?_)
          rw [List.filter_cons, if_pos (by simp [hy]), List.filter_cons,
            if_pos (by simp [hx])] at hnd
          exact List.rel_of_pairwise_cons hnd (List.mem_cons_self x _)
    rw [hcomm]
  | trans h1 h2 ih1 ih2 =>
    intro hnd s
    rw [ih1 hnd s]
    refine ih2 ?_ s
    exact (List.Perm.pairwise_iff (fun hab hc => hab ⟨hc.1.symm, hc.2.symm⟩)
      (List.Perm.filter (fun fb : FinishedBound => !fb.isShadow) h1)).mp hnd

/-- Claim C9: the result-collection step is an order-independent reduction:
for any permutation of the finished-task list, folding the collection loop
yields the same accumulator arrays (in exact arithmetic), because each real
task writes the slot determined by its feature index and bound kind (and no
two real tasks share a slot) while each shadow task adds a commutative
contribution to its slot. -/
theorem collection_order_invariant (n_resampling : ℕ)
    (l m : List FinishedBound) (hp : l.Perm m)
    (hnd : (l.filter fun fb => !fb.isShadow).Pairwise
      fun a b => ¬(a.di = b.di ∧ a.kind = b.kind)) :
    collectAll n_resampling l = collectAll n_resampling m :=
  foldl_collect_perm n_resampling hp hnd initState

/-- First finished task for the C9 witness. -/
def exFb1 : FinishedBound := ⟨0, 0, false, 1, fun _ => 0, 0⟩

/-- Second finished task for the C9 witness. -/
def exFb2 : FinishedBound := ⟨0, 1, false, 2, fun _ => 0, 0⟩

/-- Witness for claim C9 at a concrete two-task list and its transposition. -/
theorem collection_order_invariant_witness :
    ([exFb1, exFb2] : List FinishedBound).Perm [exFb2, exFb1] ∧
      (([exFb1, exFb2].filter fun fb => !fb.isShadow).Pairwise
        fun a b => ¬(a.di = b.di ∧ a.kind = b.kind)) ∧
      collectAll 1 [exFb1, exFb2] = collectAll 1 [exFb2, exFb1] := by
  have hp : ([exFb1, exFb2] : List FinishedBound).Perm [exFb2, exFb1] :=
    List.Perm.swap exFb2 exFb1 []
  have hnd : (([exFb1, exFb2].filter fun fb => !fb.isShadow).Pairwise
      fun a b => ¬(a.di = b.di ∧ a.kind = b.kind)) := by
    have hfil : [exFb1, exFb2].filter (fun fb => !fb.isShadow) = [exFb1, exFb2] := rfl
    rw [hfil]
    refine List.Pairwise.cons ?_ (List.pairwise_singleton _ _)
    intro a ha
    rw [List.mem_singleton] at ha
    subst ha
    simp [exFb1, exFb2]
  exact ⟨hp, hnd, collection_order_invariant 1 _ _ hp hnd⟩


/-- With `n_resampling = 0` the shadow part of the work list is empty. -/
theorem workList_zero_real (d : ℕ) : ∀ t ∈ workList d 0 true, t.isShadow = false := by
  intro t ht
  simp only [workList, if_true, List.replicate, List.flatten_nil, List.append_nil,
    List.mem_append, List.mem_map, List.mem_range] at ht
  rcases ht with ⟨di, _, rfl⟩ | ⟨di, _, rfl⟩ <;> rfl

/-- Folding the collection loop over real results never touches the shadow
accumulator. -/
theorem foldl_no_shadow (n_resampling : ℕ) (l : List FinishedBound)
    (hl : ∀ fb ∈ l, fb.isShadow = false) :
    ∀ s, (l.foldl (collectOne n_resampling) s).shadowrangevector =
      s.shadowrangevector := by
  induction l with
  | nil => exact fun _ => rfl
  | cons fb t ih =>
    intro s
    simp only [List.foldl_cons]
    rw [ih (fun x hx => hl x (List.mem_cons_of_mem _ hx))]
    simp [collectOne, hl fb (List.mem_cons_self _ _)]

/-- Claim C8 (amended): with `n_resampling = 0` and shadow correction enabled,
no shadow task exists (so the division by `n_resampling` in the collection loop
is never executed and the shadow accumulator stays identically zero), and each
returned entry is the raw collected bound clamped at zero, rescaled by `L1`,
then subjected to the `1e-4` cleanup; in particular it equals the raw bound
divided by `L1` whenever the raw bound is nonnegative and its rescaled value is
at least `1e-4` (the claim's unqualified equality fails: the cleanup zeroes an
entry whose rescaled raw bound lies strictly between 0 and `1e-4`). -/
theorem mainOpt_nres_zero (d : ℕ) (L1 : ℚ) (solveT : Task → ℚ × (ℕ → ℚ) × ℚ)
    (di k : ℕ) :
    (∀ t ∈ workList d 0 true, t.isShadow = false) ∧
    (∀ x y, (rawOf d 0 true solveT).shadowrangevector x y = 0) ∧
    (mainOptFull d 0 true L1 solveT).1 di k =
      roundEntry (scaleEntry L1
        (corrEntry true ((rawOf d 0 true solveT).rangevector di k) 0)) ∧
    (0 < L1 → 0 ≤ (rawOf d 0 true solveT).rangevector di k →
      1 / 10000 ≤ (rawOf d 0 true solveT).rangevector di k / L1 →
      (mainOptFull d 0 true L1 solveT).1 di k =
        (rawOf d 0 true solveT).rangevector di k / L1) := by
  have hsrv : ∀ x y, (rawOf d 0 true solveT).shadowrangevector x y = 0 := by
    intro x y
    have hreal : ∀ fb ∈ (workList d 0 true).map fun t => mkFinished t (solveT t),
        fb.isShadow = false := by
      intro fb hfb
      simp only [List.mem_map] at hfb
      obtain ⟨t, ht, rfl⟩ := hfb
      exact workList_zero_real d t ht
    have := foldl_no_shadow 0
      ((workList d 0 true).map fun t => mkFinished t (solveT t)) hreal initState
    simp only [rawOf, collectAll]
    rw [this]
    rfl
  have hpost : (mainOptFull d 0 true L1 solveT).1 di k =
      roundEntry (scaleEntry L1
        (corrEntry true ((rawOf d 0 true solveT).rangevector di k) 0)) := by
    show mainOptPost true L1 (rawOf d 0 true solveT).rangevector
      (rawOf d 0 true solveT).shadowrangevector di k = _
    rw [mainOptPost_entry, hsrv di k]
  refine ⟨workList_zero_real d, hsrv, hpost, ?_⟩
  intro hL hraw hbig
  rw [hpost]
  have hcor : corrEntry true ((rawOf d 0 true solveT).rangevector di k) 0 =
      (rawOf d 0 true solveT).rangevector di k := by
    unfold corrEntry
    rw [if_pos rfl, sub_zero, if_neg (not_lt.mpr hraw)]
  rw [hcor]
  unfold scaleEntry roundEntry
  rw [if_pos hL, if_neg]
  rw [abs_of_nonneg (div_nonneg hraw hL.le)]
  exact not_lt.mpr hbig

/-- Solver stub for the C8 counterexample: every task reports the tiny
optimal value 1/20000. -/
def exSolveC8 : Task → ℚ × (ℕ → ℚ) × ℚ := fun _ => (1 / 20000, fun _ => 0, 0)

/-- Claim C8 is false as stated: with `n_resampling = 0`, shadow correction
enabled and `L1 = 1`, a raw collected bound of 1/20000 is returned as 0, not as
the L1-rescaled raw bound 1/20000 (the cleanup step intervenes). -/
theorem mainOpt_nres_zero_counterexample :
    (mainOptFull 1 0 true 1 exSolveC8).1 0 0 = 0 ∧
      (rawOf 1 0 true exSolveC8).rangevector 0 0 / 1 = 1 / 20000 ∧
      (0 : ℚ) ≠ 1 / 20000 := by
  have hwl : workList 1 0 true = [⟨0, 0, false⟩, ⟨0, 1, false⟩] := rfl
  have hraw : (rawOf 1 0 true exSolveC8).rangevector 0 0 = 1 / 20000 := by
    simp only [rawOf, hwl, collectAll, List.map_cons, List.map_nil, List.foldl_cons,
      List.foldl_nil, collectOne, mkFinished, exSolveC8, initState]
    norm_num [upd2]
  have hsrv : (rawOf 1 0 true exSolveC8).shadowrangevector 0 0 = 0 := by
    simp only [rawOf, hwl, collectAll, List.map_cons, List.map_nil, List.foldl_cons,
      List.foldl_nil, collectOne, mkFinished, exSolveC8, initState]
    norm_num [upd2]
  refine ⟨?_, by rw [hraw]; norm_num, by norm_num⟩
  show mainOptPost true 1 (rawOf 1 0 true exSolveC8).rangevector
    (rawOf 1 0 true exSolveC8).shadowrangevector 0 0 = 0
  rw [mainOptPost_entry, hraw, hsrv]
  have hcorr : corrEntry true (1 / 20000 : ℚ) 0 = 1 / 20000 := by
    unfold corrEntry
    rw [if_pos rfl, sub_zero, if_neg (by norm_num)]
  rw [hcorr]
  have hscale : scaleEntry (1 : ℚ) (1 / 20000) = 1 / 20000 := by
    unfold scaleEntry
    rw [if_pos (by norm_num)]
    norm_num
  rw [hscale]
  unfold roundEntry
  rw [if_pos]
  rw [abs_of_nonneg (by norm_num : (0 : ℚ) ≤ 1 / 20000)]
  norm_num

/-- Solver stub for the C8 witness: every task reports optimal value 1/2. -/
def exSolveW : Task → ℚ × (ℕ → ℚ) × ℚ := fun _ => (1 / 2, fun _ => 0, 0)

/-- Witness for the amended claim C8 at a concrete input. -/
theorem mainOpt_nres_zero_witness :
    (0 : ℚ) < 1 ∧ 0 ≤ (rawOf 1 0 true exSolveW).rangevector 0 0 ∧
      1 / 10000 ≤ (rawOf 1 0 true exSolveW).rangevector 0 0 / 1 ∧
      (mainOptFull 1 0 true 1 exSolveW).1 0 0 =
        (rawOf 1 0 true exSolveW).rangevector 0 0 / 1 := by
  have hwl : workList 1 0 true = [⟨0, 0, false⟩, ⟨0, 1, false⟩] := rfl
  have hraw : (rawOf 1 0 true exSolveW).rangevector 0 0 = 1 / 2 := by
    simp only [rawOf, hwl, collectAll, List.map_cons, List.map_nil, List.foldl_cons,
      List.foldl_nil, collectOne, mkFinished, exSolveW, initState]
    norm_num [upd2]
  have h1 : (0 : ℚ) < 1 := by norm_num
  have h2 : 0 ≤ (rawOf 1 0 true exSolveW).rangevector 0 0 := by
    rw [hraw]
    norm_num
  have h3 : 1 / 10000 ≤ (rawOf 1 0 true exSolveW).rangevector 0 0 / 1 := by
    rw [hraw]
    norm_num
  exact ⟨h1, h2, h3, (mainOpt_nres_zero 1 1 exSolveW 0 0).2.2.2 h1 h2 h3⟩


/-- The estimator state relevant to repeated `_main_opt` runs: the
configuration flags and the position of the shared mutable random state
(`self.random_state`), seeded once in `__init__` (fri/fri.py line 59) and
advanced by every shadow permutation drawn. -/
structure Estimator where
  shadow_features : Bool
  n_resampling : ℕ
  rngPos : ℕ

/-- One step of a sequential (`parallel=False`) run.  Modelled from the spec:
the bound-task classes live in the missing `fri/bounds.py`; the spec says each
shadow task uses "an independently permuted copy of column di" drawn from the
shared random state, so a shadow task consumes the next draw (its solved value
depends on the draw index) while a real task consumes none. -/
def runStep (solve : Task → ℕ → ℚ) (n_resampling : ℕ)
    (sp : CollectState × ℕ) (t : Task) : CollectState × ℕ :=
  if t.isShadow then
    (collectOne n_resampling sp.1
      ⟨t.di, t.kind, t.isShadow, solve t sp.2, fun _ => 0, 0⟩, sp.2 + 1)
  else
    (collectOne n_resampling sp.1
      ⟨t.di, t.kind, t.isShadow, solve t 0, fun _ => 0, 0⟩, sp.2)

/-- One sequential `_main_opt` run on the estimator: solve the work list in
order, collect, post-process; return the interval matrix and the estimator
with its advanced random-state position. -/
def runOnce (solve : Task → ℕ → ℚ) (d : ℕ) (L1 : ℚ) (e : Estimator) :
    (ℕ → ℕ → ℚ) × Estimator :=
  let work := workList d e.n_resampling e.shadow_features
  let r := work.foldl (runStep solve e.n_resampling) (initState, e.rngPos)
  (mainOptPost e.shadow_features L1 r.1.rangevector r.1.shadowrangevector,
    { e with rngPos := r.2 })

/-- Without shadow features every work-list task is real. -/
theorem workList_false_real (d n_resampling : ℕ) :
    ∀ t ∈ workList d n_resampling false, t.isShadow = false := by
  intro t ht
  simp only [workList, if_false, Bool.false_eq_true, List.mem_append, List.mem_map,
    List.mem_range] at ht
  rcases ht with ⟨di, _, rfl⟩ | ⟨di, _, rfl⟩ <;> rfl

/-- Over a list of real tasks the collected state ignores the random-state
position. -/
theorem foldl_runStep_pos_indep (solve : Task → ℕ → ℚ) (n_resampling : ℕ)
    (l : List Task) (hl : ∀ t ∈ l, t.isShadow = false) :
    ∀ s p p', (l.foldl (runStep solve n_resampling) (s, p)).1 =
      (l.foldl (runStep solve n_resampling) (s, p')).1 := by
  induction l with
  | nil => exact fun _ _ _ => rfl
  | cons t ts ih =>
    intro s p p'
    simp only [List.foldl_cons, runStep, hl t (List.mem_cons_self _ _),
      Bool.false_eq_true, if_false]
    exact ih (fun x hx => hl x (List.mem_cons_of_mem _ hx)) _ p p'

/-- Claim C7 (amended): with shadow correction disabled, a second sequential
run on the same estimator instance returns the identical interval matrix — the
computation is a pure function of the inputs and never consumes the random
state.  (With shadow correction enabled the claim fails: the shared random
state advances across runs, so the second run draws different permutations.) -/
theorem runOnce_deterministic_no_shadow (solve : Task → ℕ → ℚ) (d : ℕ)
    (L1 : ℚ) (e : Estimator) (hsf : e.shadow_features = false) :
    (runOnce solve d L1 ((runOnce solve d L1 e).2)).1 = (runOnce solve d L1 e).1 := by
  obtain ⟨sf, nres, pos⟩ := e
  cases sf with
  | true => simp at hsf
  | false =>
    show mainOptPost false L1
        ((List.foldl (runStep solve nres)
          (initState, (List.foldl (runStep solve nres) (initState, pos)
            (workList d nres false)).2) (workList d nres false)).1).rangevector
        ((List.foldl (runStep solve nres)
          (initState, (List.foldl (runStep solve nres) (initState, pos)
            (workList d nres false)).2) (workList d nres false)).1).shadowrangevector =
      mainOptPost false L1
        ((List.foldl (runStep solve nres) (initState, pos)
          (workList d nres false)).1).rangevector
        ((List.foldl (runStep solve nres) (initState, pos)
          (workList d nres false)).1).shadowrangevector
    rw [foldl_runStep_pos_indep solve nres (workList d nres false)
      (workList_false_real d nres) initState
      (List.foldl (runStep solve nres) (initState, pos) (workList d nres false)).2 pos]

/-- Solver stub for the C7 counterexample: a shadow task's value depends on
which draw of the random state it consumed. -/
def exSolveC7 : Task → ℕ → ℚ := fun t pos =>
  if t.isShadow then (if pos = 0 then 0 else 1) else 1

/-- Estimator for the C7 counterexample: shadow correction on, one resampling
iteration, fresh random state. -/
def exEstC7 : Estimator := ⟨true, 1, 0⟩

/-- Claim C7 is false as stated: running the orchestrator twice on the same
estimator instance (shadow correction enabled) yields different intervals,
because the second run consumes later draws of the shared random state. -/
theorem runOnce_not_idempotent :
    (runOnce exSolveC7 1 0 exEstC7).1 0 0 = 1 ∧
      (runOnce exSolveC7 1 0 ((runOnce exSolveC7 1 0 exEstC7).2)).1 0 0 = 0 ∧
      (1 : ℚ) ≠ 0 := by
  have hwl : workList 1 1 true =
      [⟨0, 0, false⟩, ⟨0, 1, false⟩, ⟨0, 0, true⟩, ⟨0, 1, true⟩] := rfl
  have hpos : (runOnce exSolveC7 1 0 exEstC7).2 = ⟨true, 1, 2⟩ := rfl
  refine ⟨?_, ?_, by norm_num⟩
  · show mainOptPost true 0
      ((List.foldl (runStep exSolveC7 1) (initState, 0) (workList 1 1 true)).1).rangevector
      ((List.foldl (runStep exSolveC7 1) (initState, 0) (workList 1 1 true)).1).shadowrangevector
      0 0 = 1
    rw [mainOptPost_entry]
    have hrv : ((List.foldl (runStep exSolveC7 1) (initState, 0)
        (workList 1 1 true)).1).rangevector 0 0 = 1 := by
      norm_num [hwl, List.foldl_cons, List.foldl_nil, runStep, exSolveC7,
        collectOne, initState, upd2]
    have hsv : ((List.foldl (runStep exSolveC7 1) (initState, 0)
        (workList 1 1 true)).1).shadowrangevector 0 0 = 0 := by
      norm_num [hwl, List.foldl_cons, List.foldl_nil, runStep, exSolveC7,
        collectOne, initState, upd2]
    rw [hrv, hsv]
    norm_num [corrEntry, scaleEntry, roundEntry]
  · rw [hpos]
    show mainOptPost true 0
      ((List.foldl (runStep exSolveC7 1) (initState, 2) (workList 1 1 true)).1).rangevector
      ((List.foldl (runStep exSolveC7 1) (initState, 2) (workList 1 1 true)).1).shadowrangevector
      0 0 = 0
    rw [mainOptPost_entry]
    have hrv : ((List.foldl (runStep exSolveC7 1) (initState, 2)
        (workList 1 1 true)).1).rangevector 0 0 = 1 := by
      norm_num [hwl, List.foldl_cons, List.foldl_nil, runStep, exSolveC7,
        collectOne, initState, upd2]
    have hsv : ((List.foldl (runStep exSolveC7 1) (initState, 2)
        (workList 1 1 true)).1).shadowrangevector 0 0 = 1 := by
      norm_num [hwl, List.foldl_cons, List.foldl_nil, runStep, exSolveC7,
        collectOne, initState, upd2]
    rw [hrv, hsv]
    norm_num [corrEntry, scaleEntry, roundEntry]

/-- Estimator for the C7 witness: shadow correction disabled. -/
def exEstW : Estimator := ⟨false, 1, 0⟩

/-- Witness for the amended claim C7 at a concrete input. -/
theorem runOnce_deterministic_no_shadow_witness :
    exEstW.shadow_features = false ∧
      (runOnce exSolveC7 1 0 ((runOnce exSolveC7 1 0 exEstW).2)).1 =
        (runOnce exSolveC7 1 0 exEstW).1 :=
  ⟨rfl, runOnce_deterministic_no_shadow exSolveC7 1 0 exEstW rfl⟩


/-- Values as stored in the numpy result arrays: finite rationals plus the
IEEE special values.  cvxpy reports an infeasible minimization with optimal
value `+inf` and an infeasible maximization with `-inf`; `nan` is the sentinel
the spec asks for. -/
inductive FVal where
  | num (q : ℚ)
  | posInf
  | negInf
  | nan
deriving DecidableEq

/-- IEEE subtraction on stored values. -/
def FVal.sub : FVal → FVal → FVal
  | nan, _ => nan
  | _, nan => nan
  | num a, num b => num (a - b)
  | num _, posInf => negInf
  | num _, negInf => posInf
  | posInf, num _ => posInf
  | posInf, posInf => nan
  | posInf, negInf => posInf
  | negInf, num _ => negInf
  | negInf, posInf => negInf
  | negInf, negInf => nan

/-- IEEE strict comparison: any comparison with `nan` is false. -/
def FVal.ltF : FVal → FVal → Bool
  | nan, _ => false
  | _, nan => false
  | num a, num b => decide (a < b)
  | num _, posInf => true
  | num _, negInf => false
  | posInf, _ => false
  | negInf, num _ => true
  | negInf, posInf => true
  | negInf, negInf => false

/-- IEEE division by a positive finite scalar. -/
def FVal.divPos : FVal → ℚ → FVal
  | num a, L1 => num (a / L1)
  | posInf, _ => posInf
  | negInf, _ => negInf
  | nan, _ => nan

/-- IEEE absolute value. -/
def FVal.absF : FVal → FVal
  | num a => num |a|
  | posInf => posInf
  | negInf => posInf
  | nan => nan

/-- The post-processing of `_main_opt` (fri/fri.py lines 220-235) on stored
IEEE values: shadow subtraction, clamp of strictly negative entries to zero
(`rangevector[rangevector < 0] = 0`; a `nan` entry is not `< 0` and survives),
rescaling when `L1 > 0`, and the `1e-4` cleanup (again, `nan` and infinite
entries fail the `abs < 1e-4` test and survive). -/
def mainOptPostF (shadow_features : Bool) (L1 : ℚ) (rv srv : ℕ → ℕ → FVal) :
    ℕ → ℕ → FVal :=
  let c : ℕ → ℕ → FVal :=
    if shadow_features then
      fun di k => if ((rv di k).sub (srv di k)).ltF (FVal.num 0) then FVal.num 0
        else (rv di k).sub (srv di k)
    else rv
  let s : ℕ → ℕ → FVal := if 0 < L1 then fun di k => (c di k).divPos L1 else c
  fun di k => if ((s di k).absF).ltF (FVal.num (1 / 10000)) then FVal.num 0 else s di k

/-- Collected matrix for the C6 failing input: the upper-bound slot holds the
`-inf` optimal value of an infeasible maximization, the lower slot a normal
bound. -/
def exRvC6 : ℕ → ℕ → FVal := fun _ k => if k = 1 then FVal.negInf else FVal.num 1

/-- Shadow matrix for the C6 failing input: all shadow means zero. -/
def exSrvC6 : ℕ → ℕ → FVal := fun _ _ => FVal.num 0

/-- An all-`nan` collected matrix, to contrast: the `nan` sentinel the claim
asks for would survive the post-processing. -/
def exRvNanC6 : ℕ → ℕ → FVal := fun _ _ => FVal.nan

/-- Claim C6 evaluated at the failing input: with shadow correction enabled the
clamp step `rangevector[rangevector < 0] = 0` coerces the `-inf` sentinel of an
infeasible maximization task to exactly 0 — indistinguishable from a genuine
zero bound — while an ordinary slot is processed normally and a `nan` sentinel
would have been propagated.  The orchestrator itself never writes any sentinel
(the collection loop stores `problem.value` unconditionally and no exception
handling exists around `solve`). -/
theorem infeasible_sentinel_coerced_to_zero :
    mainOptPostF true 1 exRvC6 exSrvC6 0 1 = FVal.num 0 ∧
      mainOptPostF true 1 exRvC6 exSrvC6 0 0 = FVal.num 1 ∧
      mainOptPostF true 1 exRvNanC6 exSrvC6 0 0 = FVal.nan ∧
      FVal.negInf ≠ FVal.num 0 := by
  refine ⟨?_, ?_, ?_, by decide⟩
  · show (if ((if ((exRvC6 0 1).sub (exSrvC6 0 1)).ltF (FVal.num 0) then FVal.num 0
        else (exRvC6 0 1).sub (exSrvC6 0 1)).divPos 1).absF.ltF (FVal.num (1 / 10000))
      then FVal.num 0
      else (if ((exRvC6 0 1).sub (exSrvC6 0 1)).ltF (FVal.num 0) then FVal.num 0
        else (exRvC6 0 1).sub (exSrvC6 0 1)).divPos 1) = FVal.num 0
    norm_num [exRvC6, exSrvC6, FVal.sub, FVal.ltF, FVal.divPos, FVal.absF]
  · show (if ((if ((exRvC6 0 0).sub (exSrvC6 0 0)).ltF (FVal.num 0) then FVal.num 0
        else (exRvC6 0 0).sub (exSrvC6 0 0)).divPos 1).absF.ltF (FVal.num (1 / 10000))
      then FVal.num 0
      else (if ((exRvC6 0 0).sub (exSrvC6 0 0)).ltF (FVal.num 0) then FVal.num 0
        else (exRvC6 0 0).sub (exSrvC6 0 0)).divPos 1) = FVal.num 1
    norm_num [exRvC6, exSrvC6, FVal.sub, FVal.ltF, FVal.divPos, FVal.absF]
  · show (if ((if ((exRvNanC6 0 0).sub (exSrvC6 0 0)).ltF (FVal.num 0) then FVal.num 0
        else (exRvNanC6 0 0).sub (exSrvC6 0 0)).divPos 1).absF.ltF (FVal.num (1 / 10000))
      then FVal.num 0
      else (if ((exRvNanC6 0 0).sub (exSrvC6 0 0)).ltF (FVal.num 0) then FVal.num 0
        else (exRvNanC6 0 0).sub (exSrvC6 0 0)).divPos 1) = FVal.nan
    norm_num [exRvNanC6, exSrvC6, FVal.sub, FVal.ltF, FVal.divPos, FVal.absF]


/-- The data of one classification bound problem
(rbclassifier/optproblems.py, `BaseClassificationProblem.__init__`, lines
33-46): data matrix X, labels Y, regularization C, baseline loss `svmloss`
(ℓ0) and baseline L1 norm. -/
structure ClassificationInstance (n d : ℕ) where
  X : Fin n → Fin d → ℝ
  Y : Fin n → ℝ
  C : ℝ
  svmloss : ℝ
  L1 : ℝ

/-- The big-M constant `self.M = 2 * L1` (line 39). -/
def bigM {n d : ℕ} (P : ClassificationInstance n d) : ℝ := 2 * P.L1

/-- A point of the decision space: weight vector `omega`, bias `b`, slack
`eps` (the cvxpy variables of lines 43-46). -/
structure ClassPoint (n d : ℕ) where
  omega : Fin d → ℝ
  b : ℝ
  eps : Fin n → ℝ

/-- The common constraints (lines 48-54): soft-margin correctness
`Y_i·(X_i·ω − b) ≥ 1 − ε_i`, slack nonnegativity `ε ≥ 0`, and the budget
`‖ω‖₁ + C·Σε² ≤ L1 + C·ℓ0`. -/
def baseConstraints {n d : ℕ} (P : ClassificationInstance n d)
    (p : ClassPoint n d) : Prop :=
  (∀ i, P.Y i * ((∑ j, P.X i j * p.omega j) - p.b) ≥ 1 - p.eps i) ∧
  (∀ i, p.eps i ≥ 0) ∧
  (∑ j, |p.omega j|) + P.C * (∑ i, (p.eps i) ^ 2) ≤ P.L1 + P.C * P.svmloss

/-- A decision point extended with the auxiliary objective variable `xp`. -/
structure ExtPoint (n d : ℕ) extends ClassPoint n d where
  xp : Fin d → ℝ

/-- `MinProblemClassification` feasible region (lines 56-67): the common
constraints plus `|ω| ≤ xp` elementwise; the objective minimizes `xp[di]`. -/
def minProblemConstraints {n d : ℕ} (P : ClassificationInstance n d)
    (p : ExtPoint n d) : Prop :=
  baseConstraints P p.toClassPoint ∧ ∀ j, |p.omega j| ≤ p.xp j

/-- `MaxProblem1` feasible region (lines 70-82): common constraints,
`|ω| ≤ xp`, `xp[di] ≤ ω[di]` and `xp[di] ≤ −ω[di] + M`; the objective
maximizes `xp[di]`. -/
def maxProblem1Constraints {n d : ℕ} (P : ClassificationInstance n d)
    (di : Fin d) (p : ExtPoint n d) : Prop :=
  baseConstraints P p.toClassPoint ∧ (∀ j, |p.omega j| ≤ p.xp j) ∧
    p.xp di ≤ p.omega di ∧ p.xp di ≤ -(p.omega di) + bigM P

/-- `MaxProblem2` feasible region (lines 85-97): the mirrored variant,
`xp[di] ≤ −ω[di]` and `xp[di] ≤ ω[di] + M`. -/
def maxProblem2Constraints {n d : ℕ} (P : ClassificationInstance n d)
    (di : Fin d) (p : ExtPoint n d) : Prop :=
  baseConstraints P p.toClassPoint ∧ (∀ j, |p.omega j| ≤ p.xp j) ∧
    p.xp di ≤ -(p.omega di) ∧ p.xp di ≤ p.omega di + bigM P

/-- Claim C3: the lower-bound problem for feature `di` minimizes `xp[di]`
subject to exactly the common constraints plus `|ω| ≤ xp`, and its optimal
value equals the minimum possible `|ω_di|` over the common feasible region. -/
theorem minProblem_optimal_value {n d : ℕ} (P : ClassificationInstance n d)
    (di : Fin d) (hne : ∃ q : ClassPoint n d, baseConstraints P q) :
    sInf {v : ℝ | ∃ p : ExtPoint n d, minProblemConstraints P p ∧ p.xp di = v} =
      sInf {v : ℝ | ∃ q : ClassPoint n d, baseConstraints P q ∧ |q.omega di| = v} := by
  obtain ⟨q0', hq0'⟩ := hne
  set S := {v : ℝ | ∃ p : ExtPoint n d, minProblemConstraints P p ∧ p.xp di = v} with hS
  set T := {v : ℝ | ∃ q : ClassPoint n d, baseConstraints P q ∧ |q.omega di| = v} with hT
  have hTsubS : T ⊆ S := by
    rintro v ⟨q, hq, hv⟩
    exact ⟨⟨q, fun j => |q.omega j|⟩, ⟨hq, fun j => le_refl _⟩, hv⟩
  have hbddS : BddBelow S := by
    refine ⟨0, ?_⟩
    rintro v ⟨p, ⟨_, habs⟩, rfl⟩
    exact (abs_nonneg _).trans (habs di)
  have hbddT : BddBelow T := by
    refine ⟨0, ?_⟩
    rintro v ⟨q, _, rfl⟩
    exact abs_nonneg _
  have hTne : T.Nonempty := ⟨|q0'.omega di|, q0', hq0', rfl⟩
  have hSne : S.Nonempty := ⟨|q0'.omega di|, hTsubS ⟨q0', hq0', rfl⟩⟩
  refine le_antisymm (csInf_le_csInf hbddS hTne hTsubS) ?_
  refine le_csInf hSne ?_
  rintro v ⟨p, ⟨hb, habs⟩, rfl⟩
  exact (csInf_le hbddT ⟨p.toClassPoint, hb, rfl⟩).trans (habs di)

/-- Concrete one-sample one-feature instance: X = [[1]], Y = [1], C = 1,
ℓ0 = 1, L1 = 1. -/
def P0 : ClassificationInstance 1 1 := ⟨fun _ _ => 1, fun _ => 1, 1, 1, 1⟩

/-- Concrete feasible point: ω = [1], b = 0, ε = [0]. -/
def q0 : ClassPoint 1 1 := ⟨fun _ => 1, 0, fun _ => 0⟩

/-- `q0` satisfies the common constraints of `P0`. -/
theorem q0_feasible : baseConstraints P0 q0 := by
  refine ⟨?_, ?_, ?_⟩
  · intro i
    simp [P0, q0, Fin.sum_univ_one]
  · intro i
    simp [q0]
  · simp [P0, q0, Fin.sum_univ_one]

/-- Witness for claim C3 at the concrete instance `P0`. -/
theorem minProblem_optimal_value_witness :
    baseConstraints P0 q0 ∧
      sInf {v : ℝ | ∃ p : ExtPoint 1 1, minProblemConstraints P0 p ∧ p.xp 0 = v} =
        sInf {v : ℝ | ∃ q : ClassPoint 1 1, baseConstraints P0 q ∧ |q.omega 0| = v} :=
  ⟨q0_feasible, minProblem_optimal_value P0 0 ⟨q0, q0_feasible⟩⟩

/-- The soundness property asserted by claim C4: the two maximization variants
together bound `|ω_di|` from above — every base-feasible weight magnitude is
dominated by a feasible objective value of one of the two variants. -/
def upperBoundDominates {n d : ℕ} (P : ClassificationInstance n d)
    (di : Fin d) : Prop :=
  ∀ q : ClassPoint n d, baseConstraints P q →
    ∃ p : ExtPoint n d,
      (maxProblem1Constraints P di p ∨ maxProblem2Constraints P di p) ∧
        |q.omega di| ≤ p.xp di

/-- Instance for the C4 counterexample: C = 1, baseline loss ℓ0 = 8, L1 = 1,
so the budget admits `‖ω‖₁` up to 9 while M = 2. -/
def pC4 : ClassificationInstance 1 1 := ⟨fun _ _ => 1, fun _ => 1, 1, 8, 1⟩

/-- A base-feasible point of `pC4` with ω = [9] (margin met with b = 8). -/
def qBig : ClassPoint 1 1 := ⟨fun _ => 9, 8, fun _ => 0⟩

/-- `qBig` satisfies the common constraints of `pC4`. -/
theorem qBig_feasible : baseConstraints pC4 qBig := by
  refine ⟨?_, ?_, ?_⟩
  · intro i
    simp [pC4, qBig, Fin.sum_univ_one]
    norm_num
  · intro i
    simp [qBig]
  · simp [pC4, qBig, Fin.sum_univ_one]
    norm_num

/-- Claim C4 is false as stated: on `pC4` the feasible weight ω = 9 exceeds
every feasible objective value of both maximization variants (each variant's
constraints force `xp[di] ≤ M/2 = L1 = 1`), so the reported upper bound does
not bound `|ω_di|` from above. -/
theorem upper_bound_dominates_counterexample : ¬ upperBoundDominates pC4 0 := by
  intro h
  obtain ⟨p, hp, hle⟩ := h qBig qBig_feasible
  have habs9 : |qBig.omega 0| = 9 := by
    simp [qBig]
  have hcap : p.xp 0 ≤ 1 := by
    rcases hp with ⟨_, _, h1, h2⟩ | ⟨_, _, h1, h2⟩ <;>
      · have hM : bigM pC4 = 2 := by
          simp [bigM, pC4]
        rw [hM] at h2
        linarith
  rw [habs9] at hle
  linarith

/-- Claim C4 (amended): both variants use M = 2·L1; every feasible point of
either maximization variant is base-feasible with objective
`xp[di] = |ω_di| ≤ L1`; and conversely every base-feasible point with
`|ω_di| ≤ L1` is realized as a feasible point of one of the two variants with
objective exactly `|ω_di|`.  Hence the better feasible optimum of the two
variants bounds `|ω_di|` from above exactly over the part of the feasible
region with `|ω_di| ≤ L1` (all of it when the loss term of the budget is
zero), but not beyond `L1`. -/
theorem upper_bound_characterization {n d : ℕ} (P : ClassificationInstance n d)
    (di : Fin d) :
    bigM P = 2 * P.L1 ∧
    (∀ p : ExtPoint n d,
      maxProblem1Constraints P di p ∨ maxProblem2Constraints P di p →
      baseConstraints P p.toClassPoint ∧ p.xp di = |p.omega di| ∧ p.xp di ≤ P.L1) ∧
    (∀ q : ClassPoint n d, baseConstraints P q → |q.omega di| ≤ P.L1 →
      ∃ p : ExtPoint n d,
        (maxProblem1Constraints P di p ∨ maxProblem2Constraints P di p) ∧
          p.toClassPoint = q ∧ p.xp di = |q.omega di|) := by
  refine ⟨rfl, ?_, ?_⟩
  · intro p hp
    rcases hp with ⟨hb, habs, h1, h2⟩ | ⟨hb, habs, h1, h2⟩
    · have he : p.xp di = |p.omega di| :=
        le_antisymm (h1.trans (le_abs_self _)) (habs di)
      have hM : bigM P = 2 * P.L1 := rfl
      rw [hM] at h2
      exact ⟨hb, he, by linarith⟩
    · have he : p.xp di = |p.omega di| :=
        le_antisymm (h1.trans (neg_le_abs _)) (habs di)
      have hM : bigM P = 2 * P.L1 := rfl
      rw [hM] at h2
      exact ⟨hb, he, by linarith⟩
  · intro q hq hL
    by_cases hsign : 0 ≤ q.omega di
    · refine ⟨⟨q, fun j => |q.omega j|⟩, Or.inl ⟨hq, fun j => le_refl _, ?_, ?_⟩,
        rfl, rfl⟩
      · exact le_of_eq (abs_of_nonneg hsign)
      · have : |q.omega di| = q.omega di := abs_of_nonneg hsign
        show |q.omega di| ≤ -(q.omega di) + bigM P
        have hM : bigM P = 2 * P.L1 := rfl
        rw [hM, this]
        rw [this] at hL
        linarith
    · push_neg at hsign
      refine ⟨⟨q, fun j => |q.omega j|⟩, Or.inr ⟨hq, fun j => le_refl _, ?_, ?_⟩,
        rfl, rfl⟩
      · exact le_of_eq (abs_of_neg hsign)
      · have : |q.omega di| = -(q.omega di) := abs_of_neg hsign
        show |q.omega di| ≤ q.omega di + bigM P
        have hM : bigM P = 2 * P.L1 := rfl
        rw [hM, this]
        rw [this] at hL
        linarith

/-- Witness for the amended claim C4 at the concrete instance `P0`. -/
theorem upper_bound_characterization_witness :
    baseConstraints P0 q0 ∧ |q0.omega 0| ≤ P0.L1 ∧
      ∃ p : ExtPoint 1 1,
        (maxProblem1Constraints P0 0 p ∨ maxProblem2Constraints P0 0 p) ∧
          p.toClassPoint = q0 ∧ p.xp 0 = |q0.omega 0| := by
  have hL : |q0.omega 0| ≤ P0.L1 := by
    simp [q0, P0]
  exact ⟨q0_feasible, hL,
    (upper_bound_characterization P0 0).2.2 q0 q0_feasible hL⟩

end Fri







